import Mathlib

/-!
Verification development for the runtime core of the `textual` terminal
application framework.  Each Python function relevant to the verified
properties is shallowly embedded as an executable Lean definition; state is
passed explicitly and exceptions are modelled with explicit error values.

Source files embedded here:
  * `src/textual/app_components/app_renderer.py`       (batch_update)
  * `src/textual/app_components/app.py`                (call_from_thread)
  * `src/textual/app_components/app_event_handler.py`  (_dispatch_action)
  * `src/textual/app_components/app_compositor.py`     (_register_child, _register)
  * `src/textual/app_package/app_screen_controller.py` (pop_screen, push_screen,
    uninstall_screen, _detach_from_dom, _walk_children, _prune_node)
-/

namespace TextualCore

/-!
## Renderer: `batch_update` (`app_renderer.py`)

The renderer keeps a nesting counter `_batch_count`; `check_idle` schedules
the coalesced refresh.  We track how many times `check_idle` has fired in
`idle_checks`.
-/

/-- State of the `AppRenderer` relevant to batching: the `_batch_count`
nesting counter (a Python `int`) and the number of `check_idle` calls made
so far. -/
structure RendererState where
  batch_count : Int
  idle_checks : Nat
deriving DecidableEq, Repr

/-- Embeds `App.check_idle`: schedules the coalesced idle processing.  We
model it by counting invocations. -/
def check_idle (s : RendererState) : RendererState :=
  { s with idle_checks := s.idle_checks + 1 }

/-- Embeds `AppRenderer._begin_batch`: `self._batch_count += 1`. -/
def _begin_batch (s : RendererState) : RendererState :=
  { s with batch_count := s.batch_count + 1 }

/-- Embeds `AppRenderer._end_batch`: decrement `_batch_count` and, when it
reaches zero, call `check_idle`. -/
def _end_batch (s : RendererState) : RendererState :=
  let c := s.batch_count - 1
  if c = 0 then check_idle { s with batch_count := c }
  else { s with batch_count := c }

/-- A script of (possibly nested) `batch_update` scopes.  `scope body raises
rest` is a `with self.batch_update():` block whose body runs the nested
scopes `body` and then raises an exception iff `raises`, followed by the
sibling scopes `rest`.  An exception aborts the remaining siblings but every
already-entered scope still runs `_end_batch` (the `finally` clause of
`batch_update`). -/
inductive BatchScript where
  | done
  | scope (body : BatchScript) (raises : Bool) (rest : BatchScript)

/-- Embeds executing a `BatchScript` against `batch_update` /
`_begin_batch` / `_end_batch`.  Returns the final state and whether an
exception is propagating. -/
def run_batch_scopes : BatchScript → RendererState → RendererState × Bool
  | .done, s => (s, false)
  | .scope body raises rest, s =>
    let p := run_batch_scopes body (_begin_batch s)
    let s2 := _end_batch p.1
    if p.2 || raises then (s2, true) else run_batch_scopes rest s2

theorem run_batch_scopes_batch_count (sc : BatchScript) (s : RendererState) :
    ((run_batch_scopes sc s).1).batch_count = s.batch_count ∧
    (0 < s.batch_count → ((run_batch_scopes sc s).1).idle_checks = s.idle_checks) := by
  induction sc generalizing s with
  | done => exact ⟨rfl, fun _ => rfl⟩
  | scope body raises rest ihb ihr =>
    simp only [run_batch_scopes]
    have hb := ihb (_begin_batch s)
    have hcount : (run_batch_scopes body (_begin_batch s)).1.batch_count
        = s.batch_count + 1 := hb.1
    set p := run_batch_scopes body (_begin_batch s) with hp
    have hend_count : (_end_batch p.1).batch_count = s.batch_count := by
      simp [_end_batch, check_idle, hcount]
      split <;> simp
    constructor
    · split
      · exact hend_count
      · exact ((ihr (_end_batch p.1)).1).trans hend_count
    · intro hpos
      have hidle : p.1.idle_checks = s.idle_checks := by
        apply hb.2
        simp only [_begin_batch]
        omega
      have hend_idle : (_end_batch p.1).idle_checks = s.idle_checks := by
        simp only [_end_batch, check_idle, hcount]
        split
        · omega
        · exact hidle
      split
      · exact hend_idle
      · have := (ihr (_end_batch p.1)).2 (by rw [hend_count]; exact hpos)
        rw [this, hend_idle]

theorem run_batch_scope_fst (body : BatchScript) (raises : Bool) (s : RendererState) :
    (run_batch_scopes (.scope body raises .done) s).1
      = _end_batch (run_batch_scopes body (_begin_batch s)).1 := by
  simp only [run_batch_scopes]
  split <;> rfl

/-- C2: for every `batch_update` scope (with arbitrarily nested inner scopes,
exiting normally or via an exception), the nesting counter is restored to its
entry value, and `check_idle` fires exactly once when the scope is outermost
(counter zero at entry) and never when the scope is nested (counter positive
at entry). -/
theorem batch_update_single_coalesced_idle_check
    (body : BatchScript) (raises : Bool) (s : RendererState)
    (hs : 0 ≤ s.batch_count) :
    ((run_batch_scopes (.scope body raises .done) s).1).batch_count = s.batch_count ∧
    ((run_batch_scopes (.scope body raises .done) s).1).idle_checks
      = s.idle_checks + (if s.batch_count = 0 then 1 else 0) := by
  rw [run_batch_scope_fst]
  have hb := run_batch_scopes_batch_count body (_begin_batch s)
  have hcount : (run_batch_scopes body (_begin_batch s)).1.batch_count
      = s.batch_count + 1 := hb.1
  have hidle : (run_batch_scopes body (_begin_batch s)).1.idle_checks
      = s.idle_checks := by
    apply hb.2
    simp only [_begin_batch]
    omega
  constructor
  · simp [_end_batch, check_idle, hcount]
    split <;> simp
  · simp only [_end_batch, check_idle, hcount]
    rcases eq_or_lt_of_le hs with h0 | hpos
    · have : s.batch_count = 0 := h0.symm
      simp [this, hidle]
    · have hne : s.batch_count ≠ 0 := by omega
      have : ¬(s.batch_count + 1 - 1 = 0) := by omega
      simp [this, hidle, hne]

/-- Witness for `batch_update_single_coalesced_idle_check` at a concrete
input: an outermost scope containing one nested scope whose body raises,
starting from a zero counter; exactly one idle check fires. -/
theorem batch_update_single_coalesced_idle_check_witness :
    (0 : Int) ≤ (RendererState.mk 0 0).batch_count ∧
    (((run_batch_scopes
        (.scope (.scope .done true .done) false .done) (RendererState.mk 0 0)).1).batch_count
        = (RendererState.mk 0 0).batch_count ∧
     ((run_batch_scopes
        (.scope (.scope .done true .done) false .done) (RendererState.mk 0 0)).1).idle_checks
        = (RendererState.mk 0 0).idle_checks
            + (if (RendererState.mk 0 0).batch_count = 0 then 1 else 0)) :=
  ⟨by decide,
   batch_update_single_coalesced_idle_check
     (.scope .done true .done) false (RendererState.mk 0 0) (by decide)⟩

/-!
## App: `call_from_thread` (`app.py`)

`call_from_thread` bridges a worker thread onto the main asyncio loop.  The
embedding keeps the two checks of the Python code (`self._loop is None`,
`self._thread_id == threading.get_ident()`) and models the callback as a
value of `Except ε α`: `run_coroutine_threadsafe(...).result()` returns the
callback's value or re-raises the exception it raised.
-/

/-- Errors raised by `call_from_thread`.  The first two are the
`RuntimeError` usage errors raised by the method itself; `callbackError`
re-raises a failure coming from the user callback. -/
inductive CallFromThreadError (ε : Type) where
  | appNotRunning
  | calledFromAppThread
  | callbackError (e : ε)
deriving DecidableEq, Repr

/-- Threading-related state of the `App`: whether `self._loop` has been set
(the scheduling loop has started) and the identity of the thread running the
app (`self._thread_id`). -/
structure AppThreadState where
  loop_running : Bool
  thread_id : Nat
deriving DecidableEq, Repr

/-- Embeds `App.call_from_thread`.  `caller_thread` is the value of
`threading.get_ident()` at the call site, and `callback` is the outcome of
invoking the user callback on the main loop. -/
def call_from_thread {α ε : Type} (s : AppThreadState) (caller_thread : Nat)
    (callback : Except ε α) : Except (CallFromThreadError ε) α :=
  if s.loop_running = false then .error .appNotRunning
  else if s.thread_id = caller_thread then .error .calledFromAppThread
  else
    match callback with
    | .ok a => .ok a
    | .error e => .error (.callbackError e)

/-- C6: `call_from_thread` fails with a `RuntimeError` whenever the app's
scheduling loop has not started; it fails with a `RuntimeError` whenever it
is invoked from the app's own scheduling thread; invoked correctly from
another thread after startup it returns the callback's result or re-raises
the callback's failure. -/
theorem call_from_thread_usage_errors {α ε : Type}
    (s : AppThreadState) (caller_thread : Nat) (callback : Except ε α) :
    (s.loop_running = false →
      call_from_thread s caller_thread callback = .error .appNotRunning) ∧
    (s.loop_running = true → caller_thread = s.thread_id →
      call_from_thread s caller_thread callback = .error .calledFromAppThread) ∧
    (s.loop_running = true → caller_thread ≠ s.thread_id →
      ((∀ a : α, callback = .ok a →
          call_from_thread s caller_thread callback = .ok a) ∧
       (∀ e : ε, callback = .error e →
          call_from_thread s caller_thread callback = .error (.callbackError e)))) := by
  refine ⟨fun h => ?_, fun hl he => ?_, fun hl hne => ⟨fun a ha => ?_, fun e he => ?_⟩⟩
  · simp [call_from_thread, h]
  · simp [call_from_thread, hl, he.symm]
  · simp [call_from_thread, hl, Ne.symm hne, ha]
  · simp [call_from_thread, hl, Ne.symm hne, he]

/-!
## Action dispatch: `_dispatch_action` (`app_event_handler.py`)

`_dispatch_action` looks up `_action_<name>` first and only then
`action_<name>`; an invoked handler may raise `SkipAction`, which is caught
and reported as "not handled" (`False`).  Other exceptions from the invoked
handler propagate.  We model handler existence with `Option` and a handler
run outcome with `HandlerOutcome`.
-/

/-- Outcome of invoking one action handler: normal return, raising the
distinguished `SkipAction` signal, or raising some other exception
(identified by a code). -/
inductive HandlerOutcome where
  | ok
  | skipAction
  | fails (code : Nat)
deriving DecidableEq, Repr

/-- Which handler variant was invoked. -/
inductive HandlerKind where
  | privateHandler
  | publicHandler
deriving DecidableEq, Repr

/-- Result of `_dispatch_action`: the handlers invoked (in order) and either
the returned boolean ("handled") or a propagated exception code. -/
structure DispatchResult where
  invoked : List HandlerKind
  result : Except Nat Bool
deriving Repr

/-- Embeds `AppEventHandler._dispatch_action`.  `priv` is
`getattr(namespace, f"_action_{action_name}", None)` and `pub` is
`getattr(namespace, f"action_{action_name}", None)`; `none` means the
attribute is missing (not callable). -/
def _dispatch_action (priv pub : Option HandlerOutcome) : DispatchResult :=
  match priv with
  | some h =>
    match h with
    | .ok => ⟨[.privateHandler], .ok true⟩
    | .skipAction => ⟨[.privateHandler], .ok false⟩
    | .fails c => ⟨[.privateHandler], .error c⟩
  | none =>
    match pub with
    | some h =>
      match h with
      | .ok => ⟨[.publicHandler], .ok true⟩
      | .skipAction => ⟨[.publicHandler], .ok false⟩
      | .fails c => ⟨[.publicHandler], .error c⟩
    | none => ⟨[], .ok false⟩

/-- C8: when both the private (`_action_<name>`) and public
(`action_<name>`) handlers exist, dispatch invokes exactly the private one;
and whenever the invoked handler raises `SkipAction`, dispatch returns
"not handled" (`False`) without propagating any error. -/
theorem dispatch_action_private_first_and_skip :
    (∀ hp hpub : HandlerOutcome,
      (_dispatch_action (some hp) (some hpub)).invoked = [.privateHandler]) ∧
    (∀ pub : Option HandlerOutcome,
      (_dispatch_action (some .skipAction) pub).result = .ok false) ∧
    (_dispatch_action none (some .skipAction)).result = .ok false := by
  refine ⟨fun hp hpub => ?_, fun pub => ?_, rfl⟩
  · cases hp <;> rfl
  · rfl

/-!
## Screen stack controller (`app_screen_controller.py`)

Screens are identified by numeric ids.  `_screen_stacks` is the per-mode
dict of stacks (top of stack = last element, as in the Python list), and
`_installed_screens` is the insertion-ordered name-to-screen catalog.
`_replace_screen` only posts messages and possibly schedules DOM removal of
the replaced screen; it does not touch any stack, so the stack-state effect
of `pop_screen` is exactly the `pop()` of the current stack.
-/

/-- Failures of screen-stack manipulation (`ScreenStackError` in the
source, distinguished here by the raising operation). -/
inductive ScreenStackFailure where
  | popUnderflow
  | uninstallInStack
deriving DecidableEq, Repr

/-- State of `AppScreenController`: the per-mode screen stacks, the current
mode, and the installed-screen catalog. -/
structure ScreenCtrlState where
  screen_stacks : List (String × List Nat)
  current_mode : String
  installed_screens : List (String × Nat)
deriving DecidableEq, Repr

/-- The stacks of all modes (`self._screen_stacks.values()`). -/
def stacksValues (s : ScreenCtrlState) : List (List Nat) :=
  s.screen_stacks.map Prod.snd

/-- Dict lookup `self._screen_stacks[mode]`, defaulting to the empty stack
when the mode is absent (the operations below only use it guarded). -/
def getStack (s : ScreenCtrlState) (mode : String) : List Nat :=
  ((s.screen_stacks.find? (fun p => p.1 = mode)).map Prod.snd).getD []

/-- Replace the stack stored for `mode` (in-place mutation of the dict
entry). -/
def setStack (s : ScreenCtrlState) (mode : String) (st : List Nat) : ScreenCtrlState :=
  { s with screen_stacks :=
      s.screen_stacks.map (fun p => if p.1 = mode then (p.1, st) else p) }

/-- The `screen` property: the top (`[-1]`) of the active mode's stack, or
`none` where the Python property raises. -/
def currentScreen (s : ScreenCtrlState) : Option Nat :=
  (getStack s s.current_mode).getLast?

/-- Embeds `pop_screen`: raise `ScreenStackError` when the active mode's
stack holds at most one screen, otherwise pop and return the top screen.
(`_replace_screen` and `_pop_result_callback` post messages and may schedule
DOM removal of the popped screen; they do not modify any screen stack.) -/
def pop_screen (s : ScreenCtrlState) : ScreenCtrlState × Except ScreenStackFailure Nat :=
  let screen_stack := getStack s s.current_mode
  if screen_stack.length ≤ 1 then (s, .error .popUnderflow)
  else
    let previous_screen := screen_stack.getLast?.getD 0
    (setStack s s.current_mode screen_stack.dropLast, .ok previous_screen)

theorem find_in_updated {κ ν : Type} [DecidableEq κ]
    (l : List (κ × ν)) (k : κ) (v : ν)
    (h : (l.find? (fun p => p.1 = k)).isSome) :
    (l.map (fun p => if p.1 = k then (p.1, v) else p)).find? (fun p => p.1 = k)
      = some (k, v) := by
  induction l with
  | nil => simp at h
  | cons hd tl ih =>
    obtain ⟨a, b⟩ := hd
    by_cases hp : a = k
    · simp [List.find?, hp]
    · have hh : ((a, b) :: tl).find? (fun p => p.1 = k) = tl.find? (fun p => p.1 = k) := by
        simp [List.find?, hp]
      rw [hh] at h
      have : (if ((a, b) : κ × ν).1 = k then (((a, b) : κ × ν).1, v)
          else ((a, b) : κ × ν)) = (a, b) := by simp [hp]
      rw [List.map_cons, this]
      have hh2 : ((a, b) :: tl.map (fun p => if p.1 = k then (p.1, v) else p)).find?
          (fun p => p.1 = k)
          = (tl.map (fun p => if p.1 = k then (p.1, v) else p)).find?
              (fun p => p.1 = k) := by
        simp [List.find?, hp]
      rw [hh2]
      exact ih h

theorem getStack_setStack (s : ScreenCtrlState) (mode : String) (st : List Nat)
    (h : (s.screen_stacks.find? (fun p => p.1 = mode)).isSome) :
    getStack (setStack s mode st) mode = st := by
  unfold getStack setStack
  simp only
  rw [find_in_updated s.screen_stacks mode st h]
  rfl

theorem getStack_nonempty_mode_present (s : ScreenCtrlState) (mode : String)
    (h : getStack s mode ≠ []) :
    (s.screen_stacks.find? (fun p => p.1 = mode)).isSome := by
  unfold getStack at h
  cases hf : s.screen_stacks.find? (fun p => p.1 = mode) with
  | none => rw [hf] at h; simp at h
  | some p => simp

/-- C1: `pop_screen` on a mode stack containing exactly one screen fails
with a stack-underflow `ScreenStackError` and leaves the state (hence that
mode's stack) unchanged; on a stack of two or more screens it removes and
returns the top screen, and the new top of the active stack (the `screen`
property) becomes the screen that was beneath it. -/
theorem pop_screen_underflow_or_pop (s : ScreenCtrlState) :
    ((getStack s s.current_mode).length = 1 →
      pop_screen s = (s, .error .popUnderflow)) ∧
    (2 ≤ (getStack s s.current_mode).length →
      ((pop_screen s).2 = .ok ((getStack s s.current_mode).getLast?.getD 0) ∧
       getStack (pop_screen s).1 (pop_screen s).1.current_mode
          = (getStack s s.current_mode).dropLast ∧
       currentScreen (pop_screen s).1
          = (getStack s s.current_mode)[(getStack s s.current_mode).length - 2]?)) := by
  constructor
  · intro h1
    simp [pop_screen, h1]
  · intro h2
    have hne : getStack s s.current_mode ≠ [] := by
      intro h
      rw [h] at h2
      simp at h2
    have hlen : ¬ (getStack s s.current_mode).length ≤ 1 := by omega
    have hmode := getStack_nonempty_mode_present s s.current_mode hne
    have hpop : pop_screen s
        = (setStack s s.current_mode (getStack s s.current_mode).dropLast,
           .ok ((getStack s s.current_mode).getLast?.getD 0)) := by
      simp [pop_screen, hlen]
    have hmode' : (setStack s s.current_mode
        (getStack s s.current_mode).dropLast).current_mode = s.current_mode := by
      simp [setStack]
    refine ⟨by rw [hpop], ?_, ?_⟩
    · rw [hpop]
      simp only [hmode']
      exact getStack_setStack s s.current_mode _ hmode
    · unfold currentScreen
      rw [hpop]
      simp only [hmode']
      rw [getStack_setStack s s.current_mode _ hmode]
      rw [List.getLast?_eq_getElem?, List.length_dropLast]
      rw [List.dropLast_eq_take, List.getElem?_take]
      rw [if_pos (by omega)]
      congr 1

/-- Witness for `pop_screen_underflow_or_pop` on a two-screen stack: popping
returns screen `8`, the stack shrinks to `[7]`, and `7` becomes current. -/
theorem pop_screen_underflow_or_pop_witness :
    ((getStack (ScreenCtrlState.mk [("_default", [7, 8])] "_default" [])
        "_default").length = 1 →
      pop_screen (ScreenCtrlState.mk [("_default", [7, 8])] "_default" [])
        = (ScreenCtrlState.mk [("_default", [7, 8])] "_default" [],
           .error .popUnderflow)) ∧
    (2 ≤ (getStack (ScreenCtrlState.mk [("_default", [7, 8])] "_default" [])
        "_default").length →
      ((pop_screen (ScreenCtrlState.mk [("_default", [7, 8])] "_default" [])).2
          = .ok ((getStack (ScreenCtrlState.mk [("_default", [7, 8])] "_default" [])
              "_default").getLast?.getD 0) ∧
       getStack (pop_screen (ScreenCtrlState.mk [("_default", [7, 8])] "_default" [])).1
          (pop_screen (ScreenCtrlState.mk [("_default", [7, 8])] "_default" [])).1.current_mode
          = (getStack (ScreenCtrlState.mk [("_default", [7, 8])] "_default" [])
              "_default").dropLast ∧
       currentScreen
          (pop_screen (ScreenCtrlState.mk [("_default", [7, 8])] "_default" [])).1
          = (getStack (ScreenCtrlState.mk [("_default", [7, 8])] "_default" [])
              "_default")[(getStack (ScreenCtrlState.mk [("_default", [7, 8])]
                "_default" []) "_default").length - 2]?)) :=
  pop_screen_underflow_or_pop (ScreenCtrlState.mk [("_default", [7, 8])] "_default" [])

/-- Reference to a screen as accepted by `uninstall_screen`: an installed
name (`str`) or a screen object. -/
inductive ScreenRef where
  | byName (name : String)
  | byObject (id : Nat)
deriving DecidableEq, Repr

/-- Embeds `uninstall_screen`.  By name: a name that is not installed is a
no-op returning `None`; a name whose installed screen sits on any mode's
stack raises `ScreenStackError`; otherwise the entry is deleted and the name
returned.  By object: a screen on any mode's stack raises
`ScreenStackError`; otherwise the first catalog entry holding the screen is
popped and its name returned, or `None` if the screen was never installed. -/
def uninstall_screen (s : ScreenCtrlState) (screen : ScreenRef) :
    ScreenCtrlState × Except ScreenStackFailure (Option String) :=
  match screen with
  | .byName name =>
    match s.installed_screens.find? (fun p => p.1 = name) with
    | none => (s, .ok none)
    | some p =>
      if (stacksValues s).any (fun stack => p.2 ∈ stack) then
        (s, .error .uninstallInStack)
      else
        ({ s with installed_screens := s.installed_screens.eraseP (fun q => q.1 = name) },
         .ok (some name))
  | .byObject sid =>
    if (stacksValues s).any (fun stack => sid ∈ stack) then
      (s, .error .uninstallInStack)
    else
      match s.installed_screens.find? (fun p => p.2 = sid) with
      | some p =>
        ({ s with installed_screens := s.installed_screens.eraseP (fun q => q.2 = sid) },
         .ok (some p.1))
      | none => (s, .ok none)

/-- C10: uninstalling a screen that is present on at least one mode's
screen stack raises `ScreenStackError` and leaves the whole controller state
(in particular the installed-screen catalog) unchanged — both when the
screen is passed as an object and when it is passed as an installed name
resolving to such a screen; uninstalling a name that is not installed
returns `None` without error and changes nothing. -/
theorem uninstall_screen_stack_guard (s : ScreenCtrlState) :
    (∀ sid : Nat, (∃ stack ∈ stacksValues s, sid ∈ stack) →
      uninstall_screen s (.byObject sid) = (s, .error .uninstallInStack)) ∧
    (∀ (name : String) (p : String × Nat),
      s.installed_screens.find? (fun q => q.1 = name) = some p →
      (∃ stack ∈ stacksValues s, p.2 ∈ stack) →
      uninstall_screen s (.byName name) = (s, .error .uninstallInStack)) ∧
    (∀ name : String,
      s.installed_screens.find? (fun q => q.1 = name) = none →
      uninstall_screen s (.byName name) = (s, .ok none)) := by
  refine ⟨fun sid hin => ?_, fun name p hfind hin => ?_, fun name hfind => ?_⟩
  · have : (stacksValues s).any (fun stack => sid ∈ stack) = true := by
      rcases hin with ⟨st, hst, hmem⟩
      simp only [List.any_eq_true]
      exact ⟨st, hst, by simpa using hmem⟩
    simp [uninstall_screen, this]
  · have : (stacksValues s).any (fun stack => p.2 ∈ stack) = true := by
      rcases hin with ⟨st, hst, hmem⟩
      simp only [List.any_eq_true]
      exact ⟨st, hst, by simpa using hmem⟩
    simp [uninstall_screen, hfind, this]
  · simp [uninstall_screen, hfind]

/-- Witness for `uninstall_screen_stack_guard`: screen `3` is installed as
"help" and sits on the default mode's stack, so both uninstall forms raise;
the name "nope" is not installed and uninstalls to `None`. -/
theorem uninstall_screen_stack_guard_witness :
    (uninstall_screen (ScreenCtrlState.mk [("_default", [3])] "_default" [("help", 3)])
        (.byObject 3)
      = (ScreenCtrlState.mk [("_default", [3])] "_default" [("help", 3)],
         .error .uninstallInStack)) ∧
    (uninstall_screen (ScreenCtrlState.mk [("_default", [3])] "_default" [("help", 3)])
        (.byName "help")
      = (ScreenCtrlState.mk [("_default", [3])] "_default" [("help", 3)],
         .error .uninstallInStack)) ∧
    (uninstall_screen (ScreenCtrlState.mk [("_default", [3])] "_default" [("help", 3)])
        (.byName "nope")
      = (ScreenCtrlState.mk [("_default", [3])] "_default" [("help", 3)], .ok none)) := by
  have h := uninstall_screen_stack_guard
    (ScreenCtrlState.mk [("_default", [3])] "_default" [("help", 3)])
  refine ⟨h.1 3 ?_, h.2.1 "help" ("help", 3) (by decide) ?_, h.2.2 "nope" (by decide)⟩
  · exact ⟨[3], by decide, by decide⟩
  · exact ⟨[3], by decide, by decide⟩

/-!
## `push_screen` and `wait_for_dismiss` (`app_screen_controller.py`)

`push_screen` creates a future, suspends the outgoing screen, resolves the
target screen (installed-name lookup, registering it if not running),
attaches the result callback/future to the resolved screen, appends it to
the current stack and resumes it; only then, if `wait_for_dismiss` is set,
it checks `get_current_worker()` and raises `NoActiveWorker` outside a
worker, otherwise returning the future.  `Screen.dismiss` (not part of this
package) resolves that future with the dismissal value.
-/

/-- Errors raised by `push_screen`: the `KeyError` of an unknown installed
name, and `NoActiveWorker` when `wait_for_dismiss` is used outside a
worker. -/
inductive PushError where
  | unknownScreenName
  | noActiveWorker
deriving DecidableEq, Repr

/-- Return value of `push_screen`: an `AwaitMount` for the pushed screen,
or (with `wait_for_dismiss`) the future that the screen's dismissal will
resolve. -/
inductive PushResult where
  | awaitMount (screen : Nat)
  | dismissFuture (future : Nat)
deriving DecidableEq, Repr

/-- App state relevant to `push_screen`: the screen controller state, the
set of screens whose pump is running (`is_running`), the result futures
attached to screens by `_push_result_callback` (most recent first), the
resolved future values, and the id supply for `loop.create_future()`. -/
structure AppPushState where
  ctrl : ScreenCtrlState
  running : List Nat
  result_callbacks : List (Nat × Nat)
  future_values : List (Nat × Nat)
  next_future : Nat
deriving DecidableEq, Repr

/-- Embeds `_get_screen` composed with `get_screen`: resolve an installed
name (raising `KeyError` when unknown) or use the given screen object, and
register the screen when it is not yet running.  Of `_register`'s effects
(embedded in full in the compositor section below) only the `is_running`
transition matters here. -/
def _get_screen_resolved (s : AppPushState) (screen : ScreenRef) :
    Except PushError (Nat × AppPushState) :=
  match screen with
  | .byName name =>
    match s.ctrl.installed_screens.find? (fun p => p.1 = name) with
    | none => .error .unknownScreenName
    | some p =>
      .ok (p.2, if p.2 ∈ s.running then s else { s with running := p.2 :: s.running })
  | .byObject sid =>
    .ok (sid, if sid ∈ s.running then s else { s with running := sid :: s.running })

/-- Push a screen onto the current mode's stack (the
`self._screen_stack.append(next_screen)` step). -/
def appendToStack (c : ScreenCtrlState) (sid : Nat) : ScreenCtrlState :=
  setStack c c.current_mode (getStack c c.current_mode ++ [sid])

/-- Embeds `push_screen`.  `in_worker` tells whether `get_current_worker()`
succeeds at the call site.  Note that the `NoActiveWorker` check happens
only after every mutation (future creation, screen resolution, result
callback attachment, stack append). -/
def push_screen (s : AppPushState) (screen : ScreenRef)
    (wait_for_dismiss : Bool) (in_worker : Bool) :
    AppPushState × Except PushError PushResult :=
  let future := s.next_future
  let s1 := { s with next_future := s.next_future + 1 }
  match _get_screen_resolved s1 screen with
  | .error e => (s1, .error e)
  | .ok (next_screen, s2) =>
    let s3 := { s2 with result_callbacks := (next_screen, future) :: s2.result_callbacks }
    let s4 := { s3 with ctrl := appendToStack s3.ctrl next_screen }
    if wait_for_dismiss then
      if in_worker then (s4, .ok (.dismissFuture future))
      else (s4, .error .noActiveWorker)
    else (s4, .ok (.awaitMount next_screen))

/-- Modelled from the spec: `Screen.dismiss(value)` is not part of this
package (it lives in `screen.py`); per the spec a screen's result "is
delivered through a single-use future/callback pair established at push
time" and the returned future "resolves with the value passed to that
screen's `dismiss`".  We model it as resolving the future most recently
attached to the screen. -/
def dismissScreen (s : AppPushState) (screen : Nat) (value : Nat) : AppPushState :=
  match s.result_callbacks.find? (fun p => p.1 = screen) with
  | some p => { s with future_values := (p.2, value) :: s.future_values }
  | none => s

/-- The resolved value of a future, if any. -/
def futureValue (s : AppPushState) (future : Nat) : Option Nat :=
  (s.future_values.find? (fun p => p.1 = future)).map Prod.snd

/-- C5: pushing a screen object with `wait_for_dismiss = True` fails with
`NoActiveWorker` when the caller is not inside a worker; inside a worker it
returns the future attached to the pushed screen, and dismissing that screen
with a value resolves exactly that future to that value. -/
theorem push_screen_wait_for_dismiss_worker (s : AppPushState) (sid : Nat) :
    ((push_screen s (.byObject sid) true false).2 = .error .noActiveWorker) ∧
    ((push_screen s (.byObject sid) true true).2
        = .ok (.dismissFuture s.next_future)) ∧
    (∀ v : Nat,
      futureValue
        (dismissScreen (push_screen s (.byObject sid) true true).1 sid v)
        s.next_future = some v) := by
  by_cases hr : sid ∈ s.running
  · refine ⟨?_, ?_, fun v => ?_⟩
    · simp [push_screen, _get_screen_resolved, hr]
    · simp [push_screen, _get_screen_resolved, hr]
    · simp [push_screen, _get_screen_resolved, hr, dismissScreen, List.find?, futureValue]
  · refine ⟨?_, ?_, fun v => ?_⟩
    · simp [push_screen, _get_screen_resolved, hr]
    · simp [push_screen, _get_screen_resolved, hr]
    · simp [push_screen, _get_screen_resolved, hr, dismissScreen, List.find?, futureValue]

/-!
## Widget tree and the registry (`app_compositor.py`)

Widgets are modelled as finite trees: an identity, the running flag of the
widget's message pump, and the ordered `_nodes` child list.
-/

/-- A DOM node: identity, whether its message pump is running
(`_running`), and its ordered child list (`_nodes`). -/
inductive WNode where
  | mk (id : Nat) (running : Bool) (children : List WNode)

/-- The node's identity. -/
def WNode.id : WNode → Nat
  | .mk i _ _ => i

/-- Whether the node's message pump is running. -/
def WNode.running : WNode → Bool
  | .mk _ r _ => r

/-- The node's ordered child list (`_nodes`). -/
def WNode.children : WNode → List WNode
  | .mk _ _ cs => cs

mutual
/-- Number of nodes in a subtree (termination measure). -/
def WNode.weight : WNode → Nat
  | .mk _ _ cs => 1 + weightList cs

/-- Number of nodes in a forest (termination measure). -/
def weightList : List WNode → Nat
  | [] => 0
  | t :: ts => t.weight + weightList ts
end

theorem weightList_append (l1 l2 : List WNode) :
    weightList (l1 ++ l2) = weightList l1 + weightList l2 := by
  induction l1 with
  | nil => simp [weightList]
  | cons t ts ih => simp [weightList, ih]; omega

theorem weightList_reverse (l : List WNode) :
    weightList l.reverse = weightList l := by
  induction l with
  | nil => rfl
  | cons t ts ih => simp [weightList, weightList_append, ih]; omega

theorem weight_pos (t : WNode) : 0 < t.weight := by
  cases t with
  | mk i r cs =>
    simp only [WNode.weight]
    omega

theorem weightList_children_lt (w : WNode) (ws : List WNode) :
    weightList w.children < weightList (w :: ws) := by
  cases w with
  | mk i r cs =>
    simp only [weightList, WNode.children, WNode.weight]
    omega

theorem weightList_tail_lt (w : WNode) (ws : List WNode) :
    weightList ws < weightList (w :: ws) := by
  simp only [weightList]
  have := weight_pos w
  omega

/-- Errors of the compositor registration API (`AppError` in the
source). -/
inductive RegisterError where
  | bothBeforeAndAfter
deriving DecidableEq, Repr

/-- Registration state of `AppCompositor`: per-parent ordered child lists
(`parent._nodes`), the weak registry (`self._registry`, membership only),
the child-to-parent attachments made by `_attach`, and the pumps started by
`_start_messages`. -/
structure CompositorState where
  child_lists : List (Nat × List Nat)
  registry : List Nat
  attached : List (Nat × Nat)
  started : List Nat
deriving DecidableEq, Repr

/-- The ordered child list of `parent` (`parent._nodes`). -/
def childListOf (s : CompositorState) (parent : Nat) : List Nat :=
  ((s.child_lists.find? (fun q => q.1 = parent)).map Prod.snd).getD []

/-- Store a new child list for `parent`. -/
def setChildList (s : CompositorState) (parent : Nat) (l : List Nat) : CompositorState :=
  if (s.child_lists.find? (fun q => q.1 = parent)).isSome then
    { s with child_lists := s.child_lists.map (fun q => if q.1 = parent then (q.1, l) else q) }
  else
    { s with child_lists := s.child_lists ++ [(parent, l)] }

/-- Modelled from the spec: `NodeList._insert` is not part of this package
(it lives in `_node_list.py`); per the spec, registration performs
"constant-time insertion into the parent's ordered child list at a position
derived from before/after".  We give it the semantics of Python
`list.insert`: negative indices count from the end and out-of-range indices
are clamped. -/
def pyInsert (i : Int) (x : Nat) (l : List Nat) : List Nat :=
  let n : Int := l.length
  let j : Nat := (if i < 0 then max (n + i) 0 else min i n).toNat
  l.take j ++ x :: l.drop j

/-- Embeds `AppCompositor._register_child`: reject `before` and `after`
together; for a widget not yet in the registry, place it in the parent's
child list (`before` inserts at that index, `after ≠ -1` inserts after that
index, otherwise append), then add it to the registry, attach it to the
parent and start its pump.  A widget already in the registry is left
untouched. -/
def _register_child (s : CompositorState) (parent child : Nat)
    (before after : Option Int) : CompositorState × Except RegisterError Unit :=
  if before.isSome ∧ after.isSome then (s, .error .bothBeforeAndAfter)
  else if child ∈ s.registry then (s, .ok ())
  else
    let cl := childListOf s parent
    let cl' :=
      match before with
      | some b => pyInsert b child cl
      | none =>
        match after with
        | some a => if a = -1 then cl ++ [child] else pyInsert (a + 1) child cl
        | none => cl ++ [child]
    let s1 := setChildList s parent cl'
    ({ s1 with
        registry := child :: s1.registry,
        attached := (child, parent) :: s1.attached,
        started := child :: s1.started }, .ok ())

/-- Embeds the loop body of `AppCompositor._register` over an already
ordered widget list: widgets already in the registry are skipped entirely;
otherwise `_register_child` runs, then the widget's own `_nodes` are
registered recursively (with no `before`/`after`).  Stylesheet application
is external to this package (spec §6) and has no registration state. -/
def _register_list : CompositorState → Nat → List WNode → Option Int → Option Int →
    CompositorState × Except RegisterError Unit
  | s, _, [], _, _ => (s, .ok ())
  | s, parent, w :: ws, before, after =>
    if w.id ∈ s.registry then _register_list s parent ws before after
    else
      match _register_child s parent w.id before after with
      | (s1, .error e) => (s1, .error e)
      | (s1, .ok _) =>
        match _register_list s1 w.id w.children none none with
        | (s2, .error e) => (s2, .error e)
        | (s2, .ok _) => _register_list s2 parent ws before after
termination_by _ _ l _ _ => weightList l
decreasing_by
  · exact weightList_tail_lt w ws
  · exact weightList_children_lt w ws
  · exact weightList_tail_lt w ws

/-- Embeds `AppCompositor._register`: an empty widget list is a no-op; when
a `before` or `after` is given the widgets are processed reversed so the
insertions land in the correct order. -/
def _register (s : CompositorState) (parent : Nat) (widgets : List WNode)
    (before after : Option Int) : CompositorState × Except RegisterError Unit :=
  if widgets.isEmpty then (s, .ok ())
  else
    let widget_list := if before.isSome ∨ after.isSome then widgets.reverse else widgets
    _register_list s parent widget_list before after

theorem find_append_single {κ ν : Type} [DecidableEq κ] (l : List (κ × ν)) (k : κ) (v : ν)
    (h : l.find? (fun q => q.1 = k) = none) :
    (l ++ [(k, v)]).find? (fun q => q.1 = k) = some (k, v) := by
  induction l with
  | nil => simp [List.find?]
  | cons hd tl ih =>
    obtain ⟨a, b⟩ := hd
    by_cases hp : a = k
    · exfalso
      simp [List.find?, hp] at h
    · have h' : tl.find? (fun q => q.1 = k) = none := by
        simpa [List.find?, hp] using h
      simpa [List.find?, hp] using ih h'

theorem childListOf_setChildList (s : CompositorState) (parent : Nat) (l : List Nat) :
    childListOf (setChildList s parent l) parent = l := by
  unfold childListOf setChildList
  by_cases h : (s.child_lists.find? (fun q => q.1 = parent)).isSome
  · rw [if_pos h]
    simp only
    rw [find_in_updated s.child_lists parent l h]
    rfl
  · rw [if_neg h]
    simp only
    have hnone : s.child_lists.find? (fun q => q.1 = parent) = none := by
      cases hf : s.child_lists.find? (fun q => q.1 = parent) with
      | none => rfl
      | some p => rw [hf] at h; simp at h
    rw [find_append_single s.child_lists parent l hnone]
    rfl

theorem registry_mem_register_child (s : CompositorState) (parent child : Nat)
    (before after : Option Int) (hba : ¬ (before.isSome ∧ after.isSome))
    (hreg : child ∈ s.registry) :
    _register_child s parent child before after = (s, .ok ()) := by
  simp [_register_child, hba, hreg]

/-- C7: registering a child with both `before` and `after` fails with the
configuration error; registering an unregistered child with `before = i`
(for a valid index `i`) inserts it at index `i` of the parent's ordered
child list, adds it to the registry, attaches it to the parent and starts
its pump. -/
theorem register_child_before_inserts_at_index
    (s : CompositorState) (parent child : Nat) (i : Nat)
    (hreg : child ∉ s.registry) (hi : i ≤ (childListOf s parent).length) :
    (∀ b a : Int, _register_child s parent child (some b) (some a)
        = (s, .error .bothBeforeAndAfter)) ∧
    ((_register_child s parent child (some (i : Int)) none).2 = .ok () ∧
     childListOf (_register_child s parent child (some (i : Int)) none).1 parent
        = (childListOf s parent).take i ++ child :: (childListOf s parent).drop i ∧
     child ∈ (_register_child s parent child (some (i : Int)) none).1.registry ∧
     (child, parent) ∈ (_register_child s parent child (some (i : Int)) none).1.attached ∧
     child ∈ (_register_child s parent child (some (i : Int)) none).1.started) := by
  have hstep : _register_child s parent child (some (i : Int)) none
      = ({ setChildList s parent (pyInsert (i : Int) child (childListOf s parent)) with
            registry := child :: (setChildList s parent
              (pyInsert (i : Int) child (childListOf s parent))).registry,
            attached := (child, parent) :: (setChildList s parent
              (pyInsert (i : Int) child (childListOf s parent))).attached,
            started := child :: (setChildList s parent
              (pyInsert (i : Int) child (childListOf s parent))).started }, .ok ()) := by
    simp [_register_child, hreg]
  have hins : pyInsert (i : Int) child (childListOf s parent)
      = (childListOf s parent).take i ++ child :: (childListOf s parent).drop i := by
    unfold pyInsert
    have h1 : ¬ ((i : Int) < 0) := by omega
    have h2 : min (i : Int) ((childListOf s parent).length : Int) = (i : Int) :=
      min_eq_left (by exact_mod_cast hi)
    simp only [if_neg h1, h2, Int.toNat_natCast]
  refine ⟨fun b a => by simp [_register_child], ?_, ?_, ?_, ?_, ?_⟩
  · rw [hstep]
  · rw [hstep]
    simp only
    have : childListOf
        { setChildList s parent (pyInsert (i : Int) child (childListOf s parent)) with
            registry := child :: (setChildList s parent
              (pyInsert (i : Int) child (childListOf s parent))).registry,
            attached := (child, parent) :: (setChildList s parent
              (pyInsert (i : Int) child (childListOf s parent))).attached,
            started := child :: (setChildList s parent
              (pyInsert (i : Int) child (childListOf s parent))).started } parent
        = childListOf (setChildList s parent
            (pyInsert (i : Int) child (childListOf s parent))) parent := by
      unfold childListOf setChildList
      split <;> rfl
    rw [this, childListOf_setChildList, hins]
  · rw [hstep]; simp
  · rw [hstep]; simp
  · rw [hstep]; simp

/-- Witness for `register_child_before_inserts_at_index`: registering child
`100` with `before = 0` on a parent whose children are `[101, 102]` yields
`[100, 101, 102]`. -/
theorem register_child_before_inserts_at_index_witness :
    (100 ∉ (CompositorState.mk [(0, [101, 102])] [] [] []).registry ∧
     0 ≤ (childListOf (CompositorState.mk [(0, [101, 102])] [] [] []) 0).length) ∧
    ((∀ b a : Int,
        _register_child (CompositorState.mk [(0, [101, 102])] [] [] []) 0 100
          (some b) (some a)
          = (CompositorState.mk [(0, [101, 102])] [] [] [],
             .error .bothBeforeAndAfter)) ∧
     ((_register_child (CompositorState.mk [(0, [101, 102])] [] [] []) 0 100
          (some ((0 : Nat) : Int)) none).2 = .ok () ∧
      childListOf (_register_child (CompositorState.mk [(0, [101, 102])] [] [] []) 0 100
          (some ((0 : Nat) : Int)) none).1 0
        = (childListOf (CompositorState.mk [(0, [101, 102])] [] [] []) 0).take 0
            ++ 100 :: (childListOf (CompositorState.mk [(0, [101, 102])] [] [] []) 0).drop 0 ∧
      100 ∈ (_register_child (CompositorState.mk [(0, [101, 102])] [] [] []) 0 100
          (some ((0 : Nat) : Int)) none).1.registry ∧
      (100, 0) ∈ (_register_child (CompositorState.mk [(0, [101, 102])] [] [] []) 0 100
          (some ((0 : Nat) : Int)) none).1.attached ∧
      100 ∈ (_register_child (CompositorState.mk [(0, [101, 102])] [] [] []) 0 100
          (some ((0 : Nat) : Int)) none).1.started)) :=
  ⟨⟨by decide, by decide⟩,
   register_child_before_inserts_at_index
     (CompositorState.mk [(0, [101, 102])] [] [] []) 0 100 0
     (by decide) (by decide)⟩

/-- C9: registration is idempotent.  A widget already present in the
registry is untouched by `_register_child` (with any admissible
`before`/`after` position) and by `_register`: the state — in particular the
parent's child list and the set of started pumps — is returned unchanged, so
no duplicate child-list entry and no pump restart can result. -/
theorem register_already_registered_noop (s : CompositorState) (parent : Nat) (w : WNode) :
    (∀ (child : Nat) (before after : Option Int),
      ¬ (before.isSome ∧ after.isSome) → child ∈ s.registry →
      _register_child s parent child before after = (s, .ok ())) ∧
    (w.id ∈ s.registry →
      ∀ before after : Option Int,
      _register s parent [w] before after = (s, .ok ())) := by
  constructor
  · exact fun child b a hba hreg => registry_mem_register_child s parent child b a hba hreg
  · intro hreg before after
    unfold _register
    have h1 : (if before.isSome ∨ after.isSome
        then ([w] : List WNode).reverse else [w]) = [w] := by
      simp
    simp only [List.isEmpty_cons, Bool.false_eq_true, if_false, h1]
    simp [_register_list, hreg]

/-- Witness for `register_already_registered_noop`: widget `5` is already
registered; re-registering it under parent `0` (with `before = 2`) changes
nothing. -/
theorem register_already_registered_noop_witness :
    (¬ ((some 2 : Option Int).isSome ∧ (none : Option Int).isSome) ∧
     5 ∈ (CompositorState.mk [(0, [5])] [5] [(5, 0)] [5]).registry ∧
     (WNode.mk 5 true []).id ∈ (CompositorState.mk [(0, [5])] [5] [(5, 0)] [5]).registry) ∧
    _register_child (CompositorState.mk [(0, [5])] [5] [(5, 0)] [5]) 0 5 (some 2) none
      = (CompositorState.mk [(0, [5])] [5] [(5, 0)] [5], .ok ()) ∧
    _register (CompositorState.mk [(0, [5])] [5] [(5, 0)] [5]) 0
        [WNode.mk 5 true []] (some 2) none
      = (CompositorState.mk [(0, [5])] [5] [(5, 0)] [5], .ok ()) :=
  ⟨⟨by decide, by decide, by decide⟩,
   (register_already_registered_noop
      (CompositorState.mk [(0, [5])] [5] [(5, 0)] [5]) 0 (WNode.mk 5 true [])).1
     5 (some 2) none (by decide) (by decide),
   (register_already_registered_noop
      (CompositorState.mk [(0, [5])] [5] [(5, 0)] [5]) 0 (WNode.mk 5 true [])).2
     (by decide) (some 2) none⟩

/-!
## DOM detach: `_detach_from_dom` (`app_screen_controller.py`)

`_detach_from_dom` receives the list of widgets requested for removal,
computes `pruned_remove = [w for w in widgets if
set(widgets).isdisjoint(w.ancestors)]`, and detaches exactly the widgets of
`pruned_remove` from their parents' child lists.
-/

mutual
/-- Modelled from the spec: `Widget.ancestors` (`dom.py`, not part of this
package) walks the parent chain upward, nearest parent first.  We recover
it from the tree: walking down from the root, `acc` accumulates the ids of
the nodes above the current one, nearest first. -/
def ancAux (target : Nat) (acc : List Nat) : WNode → Option (List Nat)
  | .mk i _ cs => if i = target then some acc else ancAuxForest target (i :: acc) cs

/-- Forest companion of `ancAux`: first hit wins. -/
def ancAuxForest (target : Nat) (acc : List Nat) : List WNode → Option (List Nat)
  | [] => none
  | c :: cs =>
    match ancAux target acc c with
    | some r => some r
    | none => ancAuxForest target acc cs
end

/-- The ancestor ids (nearest parent first) of the node `w` in the DOM tree
rooted at `t`. -/
def ancestorIds (t : WNode) (w : Nat) : List Nat :=
  (ancAux w [] t).getD []

/-- Embeds the detach step of `_detach_from_dom`: of the requested widgets,
those whose ancestor set is disjoint from the requested set
(`request_remove.isdisjoint(widget.ancestors)`) form `pruned_remove`; each
of them is snipped from its parent's child list and detached, and the list
is returned.  The other requested widgets are never independently
detached. -/
def _detach_from_dom (t : WNode) (widgets : List Nat) : List Nat :=
  widgets.filter (fun w => (ancestorIds t w).all (fun a => decide (a ∉ widgets)))

/-- C4: the detach step detaches exactly the requested nodes that have no
ancestor in the requested set (an ancestor in the requested set subsumes its
requested descendants); in particular, requesting a parent (`1`) together
with its child (`2`) detaches only the parent. -/
theorem detach_from_dom_minimal_subset :
    (∀ (t : WNode) (widgets : List Nat) (w : Nat),
      w ∈ _detach_from_dom t widgets ↔
        (w ∈ widgets ∧ ∀ a ∈ ancestorIds t w, a ∉ widgets)) ∧
    _detach_from_dom (WNode.mk 0 true [WNode.mk 1 true [WNode.mk 2 true []]]) [1, 2]
      = [1] := by
  constructor
  · intro t widgets w
    simp [_detach_from_dom, List.mem_filter, List.all_eq_true]
  · rfl

/-!
## Pruning: `_walk_children` and `_prune_node` (`app_screen_controller.py`)

`_walk_children` walks a subtree depth first with an explicit stack,
yielding for each visited widget the list `[*widget._nodes,
*widget._get_virtual_dom()]` when nonempty (`_get_virtual_dom` contributes
nothing for tree purposes and is modelled as empty).  `_prune_node` then
iterates the yielded lists in reverse: for each list it closes all running
children's pumps together (`asyncio.gather`) and — when at least one was
running — unregisters every child of the list; finally it closes the root's
pump and unregisters the root.
-/

/-- Embeds `_walk_children`: the Python `stack.pop()` removes the last
element and `push` appends, so with the stack head as top a widget's
children are pushed in reverse. -/
def _walk_children : List WNode → List (List WNode)
  | [] => []
  | t :: stack =>
    let children := t.children
    let rest := _walk_children (children.reverse ++ stack)
    if children.isEmpty then rest else children :: rest
termination_by l => weightList l
decreasing_by
  simp only [weightList_append, weightList_reverse, weightList]
  cases t with
  | mk i r cs =>
    simp only [WNode.children, WNode.weight]
    omega

mutual
/-- All nodes of a subtree, root first. -/
def allNodes : WNode → List WNode
  | .mk i r cs => .mk i r cs :: forestNodes cs

/-- All nodes of a forest. -/
def forestNodes : List WNode → List WNode
  | [] => []
  | t :: ts => allNodes t ++ forestNodes ts
end

/-- The ids of all nodes of a subtree. -/
def allIds (t : WNode) : List Nat :=
  (allNodes t).map WNode.id

mutual
/-- The children lists yielded by `_walk_children [t]`, already in the
reversed order in which `_prune_node` processes them: for each node, the
groups of its subtrees come first (children in order), then the node's own
children list.  `prune_walk_reverse` below proves this is exactly
`(_walk_children [t]).reverse`. -/
def revSub : WNode → List (List WNode)
  | .mk _ _ cs => revForest cs ++ (if cs.isEmpty then [] else [cs])

/-- Forest companion of `revSub`. -/
def revForest : List WNode → List (List WNode)
  | [] => []
  | c :: cs => revSub c ++ revForest cs
end

theorem revForest_append (l1 l2 : List WNode) :
    revForest (l1 ++ l2) = revForest l1 ++ revForest l2 := by
  induction l1 with
  | nil => simp [revForest]
  | cons c cs ih => simp [revForest, ih]

theorem walk_children_append (l1 l2 : List WNode) :
    _walk_children (l1 ++ l2) = _walk_children l1 ++ _walk_children l2 := by
  match l1 with
  | [] => simp [_walk_children]
  | t :: l1' =>
    rw [List.cons_append, _walk_children, _walk_children]
    have ih := walk_children_append (t.children.reverse ++ l1') l2
    simp only [List.append_assoc] at ih ⊢
    rw [ih]
    by_cases h : t.children.isEmpty <;> simp [h]
termination_by weightList l1
decreasing_by
  simp only [weightList_append, weightList_reverse, weightList]
  cases t with
  | mk i r cs =>
    simp only [WNode.children, WNode.weight]
    omega

theorem walk_children_reverse (l : List WNode) :
    (_walk_children l).reverse = revForest l.reverse := by
  match l with
  | [] => simp [_walk_children, revForest]
  | t :: l' =>
    rw [_walk_children]
    have ih1 := walk_children_reverse l'
    have ih2 := walk_children_reverse t.children.reverse
    rw [walk_children_append]
    have hsub : revSub t = revForest t.children
        ++ (if t.children.isEmpty then [] else [t.children]) := by
      cases t with
      | mk i r cs => simp [revSub, WNode.children]
    have hrhs : revForest (t :: l').reverse
        = revForest l'.reverse ++ revForest t.children
            ++ (if t.children.isEmpty then [] else [t.children]) := by
      rw [List.reverse_cons, revForest_append]
      simp [revForest, hsub]
    rw [hrhs]
    rw [List.reverse_reverse] at ih2
    by_cases h : t.children.isEmpty
    · simp [h, ih1, ih2, List.reverse_append]
    · simp [h, ih1, ih2, List.reverse_append, List.reverse_cons, List.append_assoc]
termination_by weightList l
decreasing_by
  · simp only [weightList_append, weightList_reverse, weightList]

    cases t with
    | mk i r cs =>
      simp only [WNode.children, WNode.weight]
      omega
  · simp only [weightList_reverse, weightList]
    cases t with
    | mk i r cs =>
      simp only [WNode.children, WNode.weight]
      omega

theorem walk_children_single_reverse (t : WNode) :
    (_walk_children [t]).reverse = revSub t := by
  rw [walk_children_reverse]
  simp [revForest]

/-- Observable events of `_prune_node`: one `closeGroup` per
`asyncio.gather` of `_close_messages` calls (listing the ids whose pumps are
closed together), and one `unregisterNode` per `_unregister` call. -/
inductive PruneEvent where
  | closeGroup (ids : List Nat)
  | unregisterNode (id : Nat)
deriving DecidableEq, Repr

/-- Embeds one iteration of `_prune_node`'s loop body over a children list:
close the running children together; when there was at least one, unregister
every child of the list (the Python code skips the unregister loop when
`close_messages` is empty). -/
def groupEvents (g : List WNode) : List PruneEvent :=
  if ((g.filter (fun c => c.running)).map WNode.id).isEmpty then []
  else .closeGroup ((g.filter (fun c => c.running)).map WNode.id)
    :: g.map (fun c => .unregisterNode c.id)

/-- Concatenate the events of a list of children groups, processed in
order. -/
def eventsOfGroups : List (List WNode) → List PruneEvent
  | [] => []
  | g :: gs => groupEvents g ++ eventsOfGroups gs

/-- Embeds `_prune_node` as its shutdown trace: the children lists yielded
by `_walk_children` are processed in reverse, then the root's pump is closed
(`root._close_messages(wait=True)`) and the root unregistered.  (The early
return when the root is not in the registry is the degenerate no-op
case.) -/
def pruneTrace (root : WNode) : List PruneEvent :=
  eventsOfGroups (_walk_children [root]).reverse
    ++ [.closeGroup [root.id], .unregisterNode root.id]

/-- Find a node of the tree by id (first hit in root-first order). -/
def findNodeById (tree : WNode) (u : Nat) : Option WNode :=
  (allNodes tree).find? (fun n => n.id = u)

/-- The ids of the children of the tree node with id `u`. -/
def childIdsOf (tree : WNode) (u : Nat) : List Nat :=
  ((findNodeById tree u).map (fun n => n.children.map WNode.id)).getD []

/-- Ids of the running nodes of a subtree. -/
def runningIdsIn (t : WNode) : List Nat :=
  ((allNodes t).filter (fun n => n.running)).map WNode.id

/-- Ids of the running nodes of a forest. -/
def runningIdsOfForest (cs : List WNode) : List Nat :=
  ((forestNodes cs).filter (fun n => n.running)).map WNode.id

/-- Ids of the running proper descendants of the members of a forest. -/
def properRunningList (cs : List WNode) : List Nat :=
  cs.flatMap (fun c => runningIdsOfForest c.children)

/-- Safety checker for a prune trace: `run` is the set of ids whose pumps
are still running; a `closeGroup` stops them, and an `unregisterNode u` is
legal only when no child of `u` (per the tree) is still running — the
formalisation of "no parent node is ever unregistered while one of its
children's pumps is still running". -/
def checkPrune (tree : WNode) : List PruneEvent → Finset Nat → Bool
  | [], _ => true
  | .closeGroup ids :: rest, run => checkPrune tree rest (run \ ids.toFinset)
  | .unregisterNode u :: rest, run =>
    (childIdsOf tree u).all (fun c => decide (c ∉ run)) && checkPrune tree rest run

/-- The running set after a list of events. -/
def runAfter : List PruneEvent → Finset Nat → Finset Nat
  | [], run => run
  | .closeGroup ids :: rest, run => runAfter rest (run \ ids.toFinset)
  | .unregisterNode _ :: rest, run => runAfter rest run

theorem checkPrune_append (tree : WNode) (e1 e2 : List PruneEvent) (run : Finset Nat) :
    checkPrune tree (e1 ++ e2) run
      = (checkPrune tree e1 run && checkPrune tree e2 (runAfter e1 run)) := by
  induction e1 generalizing run with
  | nil => simp [checkPrune, runAfter]
  | cons e rest ih =>
    cases e with
    | closeGroup ids => simp [checkPrune, runAfter, ih]
    | unregisterNode u => simp [checkPrune, runAfter, ih, Bool.and_assoc]

theorem runAfter_append (e1 e2 : List PruneEvent) (run : Finset Nat) :
    runAfter (e1 ++ e2) run = runAfter e2 (runAfter e1 run) := by
  induction e1 generalizing run with
  | nil => simp [runAfter]
  | cons e rest ih =>
    cases e with
    | closeGroup ids => simp [runAfter, ih]
    | unregisterNode u => simp [runAfter, ih]

theorem eventsOfGroups_append (g1 g2 : List (List WNode)) :
    eventsOfGroups (g1 ++ g2) = eventsOfGroups g1 ++ eventsOfGroups g2 := by
  induction g1 with
  | nil => simp [eventsOfGroups]
  | cons g gs ih => simp [eventsOfGroups, ih]

theorem checkPrune_unregs (tree : WNode) (g : List WNode) (run : Finset Nat) :
    checkPrune tree (g.map (fun c => .unregisterNode c.id)) run
      = g.all (fun v => (childIdsOf tree v.id).all (fun c => decide (c ∉ run))) := by
  induction g with
  | nil => simp [checkPrune]
  | cons v g' ih => simp [checkPrune, ih]

theorem runAfter_unregs (g : List WNode) (run : Finset Nat) :
    runAfter (g.map (fun c => .unregisterNode c.id)) run = run := by
  induction g with
  | nil => simp [runAfter]
  | cons v g' ih => simp [runAfter, ih]

theorem self_mem_allNodes (t : WNode) : t ∈ allNodes t := by
  cases t with
  | mk i r cs => simp [allNodes]

theorem mem_allNodes_iff (c : WNode) (x : WNode) :
    x ∈ allNodes c ↔ x = c ∨ x ∈ forestNodes c.children := by
  cases c with
  | mk i r cs => simp [allNodes, WNode.children]

theorem mem_forestNodes_iff (cs : List WNode) (x : WNode) :
    x ∈ forestNodes cs ↔ ∃ c ∈ cs, x ∈ allNodes c := by
  induction cs with
  | nil => simp [forestNodes]
  | cons c rest ih => simp [forestNodes, ih]

theorem sdiff_sdiff_union (s a b : Finset Nat) : (s \ a) \ b = s \ (a ∪ b) := by
  ext x
  simp only [Finset.mem_sdiff, Finset.mem_union]
  tauto

theorem revSub_eq (c : WNode) :
    revSub c = revForest c.children
      ++ (if c.children.isEmpty then [] else [c.children]) := by
  cases c with
  | mk i r cs => simp [revSub, WNode.children]

theorem eventsOfGroups_revSub (c : WNode) :
    eventsOfGroups (revSub c)
      = eventsOfGroups (revForest c.children) ++ groupEvents c.children := by
  rw [revSub_eq, eventsOfGroups_append]
  by_cases h : c.children.isEmpty
  · have hc : c.children = [] := by simpa [List.isEmpty_iff] using h
    simp [hc, eventsOfGroups, groupEvents]
  · simp [h, eventsOfGroups]

theorem runningIdsOfForest_cons (c : WNode) (cs : List WNode) :
    runningIdsOfForest (c :: cs)
      = (if c.running then [c.id] else [])
          ++ runningIdsOfForest c.children ++ runningIdsOfForest cs := by
  cases c with
  | mk i r cs' =>
    simp only [runningIdsOfForest, forestNodes, allNodes, WNode.children,
      List.filter_append, List.map_append, List.filter_cons]
    cases r with
    | false => simp [WNode.running]
    | true => simp [WNode.running]

theorem mem_runningIdsOfForest (cs : List WNode) (x : Nat) :
    x ∈ runningIdsOfForest cs
      ↔ ∃ n ∈ forestNodes cs, n.running = true ∧ n.id = x := by
  simp only [runningIdsOfForest, List.mem_map, List.mem_filter]
  tauto

theorem mem_properRunningList (cs : List WNode) (x : Nat) :
    x ∈ properRunningList cs
      ↔ ∃ c ∈ cs, ∃ n ∈ forestNodes c.children, n.running = true ∧ n.id = x := by
  simp [properRunningList, List.mem_flatMap, mem_runningIdsOfForest]

theorem runningIdsOfForest_split (g : List WNode) :
    (runningIdsOfForest g).toFinset
      = (properRunningList g).toFinset
          ∪ ((g.filter (fun c => c.running)).map WNode.id).toFinset := by
  ext x
  simp only [List.mem_toFinset, Finset.mem_union, mem_runningIdsOfForest,
    mem_properRunningList, List.mem_map, List.mem_filter]
  constructor
  · rintro ⟨n, hmem, hrun, hid⟩
    obtain ⟨c, hc, hn⟩ := (mem_forestNodes_iff g n).mp hmem
    rcases (mem_allNodes_iff c n).mp hn with heq | hdesc
    · right
      exact ⟨n, ⟨heq ▸ hc, hrun⟩, hid⟩
    · left
      exact ⟨c, hc, n, hdesc, hrun, hid⟩
  · rintro (⟨c, hc, n, hdesc, hrun, hid⟩ | ⟨n, ⟨hc, hrun⟩, hid⟩)
    · exact ⟨n, (mem_forestNodes_iff g n).mpr
        ⟨c, hc, (mem_allNodes_iff c n).mpr (Or.inr hdesc)⟩, hrun, hid⟩
    · exact ⟨n, (mem_forestNodes_iff g n).mpr
        ⟨n, hc, self_mem_allNodes n⟩, hrun, hid⟩

theorem head_group_step (tree : WNode) (g : List WNode) (run : Finset Nat)
    (hlookup : ∀ u ∈ g, childIdsOf tree u.id = u.children.map WNode.id)
    (hchild : ∀ u ∈ g, ∀ d ∈ u.children, d.id ∉ run) :
    checkPrune tree (groupEvents g) run = true ∧
    runAfter (groupEvents g) run
      = run \ ((g.filter (fun c => c.running)).map WNode.id).toFinset := by
  unfold groupEvents
  by_cases h : ((g.filter (fun c => c.running)).map WNode.id).isEmpty
  · rw [if_pos h]
    refine ⟨rfl, ?_⟩
    have he : (g.filter (fun c => c.running)).map WNode.id = [] :=
      List.isEmpty_iff.mp h
    rw [he]
    simp [runAfter]
  · rw [if_neg h]
    constructor
    · simp only [checkPrune]
      rw [checkPrune_unregs, List.all_eq_true]
      intro v hv
      rw [hlookup v hv, List.all_eq_true]
      intro cid hcid
      obtain ⟨d, hd, hdid⟩ := List.mem_map.mp hcid
      rw [decide_eq_true_eq]
      intro hmem
      exact hchild v hv d hd (hdid ▸ (Finset.mem_sdiff.mp hmem).1)
    · simp only [runAfter]
      rw [runAfter_unregs]

theorem prune_forest_ok (tree : WNode) (cs : List WNode) (run : Finset Nat)
    (hlookup : ∀ u ∈ forestNodes cs, childIdsOf tree u.id = u.children.map WNode.id)
    (hnonrun : ∀ v ∈ forestNodes cs, v.running = false → v.id ∉ run) :
    checkPrune tree (eventsOfGroups (revForest cs)) run = true ∧
    runAfter (eventsOfGroups (revForest cs)) run
      = run \ (properRunningList cs).toFinset := by
  match cs with
  | [] =>
    constructor
    · simp [revForest, eventsOfGroups, checkPrune]
    · simp [revForest, eventsOfGroups, runAfter, properRunningList]
  | c :: rest =>
    have hmem_c : ∀ x ∈ allNodes c, x ∈ forestNodes (c :: rest) := by
      intro x hx
      have : forestNodes (c :: rest) = allNodes c ++ forestNodes rest := by
        simp [forestNodes]
      rw [this]
      exact List.mem_append.mpr (Or.inl hx)
    have hmem_rest : ∀ x ∈ forestNodes rest, x ∈ forestNodes (c :: rest) := by
      intro x hx
      have : forestNodes (c :: rest) = allNodes c ++ forestNodes rest := by
        simp [forestNodes]
      rw [this]
      exact List.mem_append.mpr (Or.inr hx)
    have hmem_cc : ∀ x ∈ forestNodes c.children, x ∈ forestNodes (c :: rest) :=
      fun x hx => hmem_c x ((mem_allNodes_iff c x).mpr (Or.inr hx))
    have hmem_heads : ∀ u ∈ c.children, u ∈ forestNodes c.children :=
      fun u hu => (mem_forestNodes_iff c.children u).mpr ⟨u, hu, self_mem_allNodes u⟩
    have IH1 := prune_forest_ok tree c.children run
      (fun u hu => hlookup u (hmem_cc u hu))
      (fun v hv hr => hnonrun v (hmem_cc v hv) hr)
    have hchild1 : ∀ u ∈ c.children, ∀ d ∈ u.children,
        d.id ∉ run \ (properRunningList c.children).toFinset := by
      intro u hu d hd
      have hd_cc : d ∈ forestNodes c.children :=
        (mem_forestNodes_iff c.children d).mpr
          ⟨u, hu, (mem_allNodes_iff u d).mpr
            (Or.inr ((mem_forestNodes_iff u.children d).mpr
              ⟨d, hd, self_mem_allNodes d⟩))⟩
      by_cases hr : d.running = true
      · have hprop : d.id ∈ properRunningList c.children :=
          (mem_properRunningList c.children d.id).mpr
            ⟨u, hu, d, (mem_forestNodes_iff u.children d).mpr
              ⟨d, hd, self_mem_allNodes d⟩, hr, rfl⟩
        intro hmem
        exact (Finset.mem_sdiff.mp hmem).2 (List.mem_toFinset.mpr hprop)
      · have hnr := hnonrun d (hmem_cc d hd_cc) (by simpa using hr)
        intro hmem
        exact hnr (Finset.mem_sdiff.mp hmem).1
    have hhead := head_group_step tree c.children
      (run \ (properRunningList c.children).toFinset)
      (fun u hu => hlookup u (hmem_cc u (hmem_heads u hu)))
      hchild1
    have hrun2 : (run \ (properRunningList c.children).toFinset)
        \ ((c.children.filter (fun x => x.running)).map WNode.id).toFinset
        = run \ (runningIdsOfForest c.children).toFinset := by
      rw [sdiff_sdiff_union, runningIdsOfForest_split]
    have IH2 := prune_forest_ok tree rest
      (run \ (runningIdsOfForest c.children).toFinset)
      (fun u hu => hlookup u (hmem_rest u hu))
      (fun v hv hr => by
        have hnr := hnonrun v (hmem_rest v hv) hr
        intro hmem
        exact hnr (Finset.mem_sdiff.mp hmem).1)
    have hev : eventsOfGroups (revForest (c :: rest))
        = eventsOfGroups (revForest c.children)
            ++ groupEvents c.children ++ eventsOfGroups (revForest rest) := by
      have h1 : revForest (c :: rest) = revSub c ++ revForest rest := by
        simp [revForest]
      rw [h1, eventsOfGroups_append, eventsOfGroups_revSub]
    have hprop_cons : properRunningList (c :: rest)
        = runningIdsOfForest c.children ++ properRunningList rest := by
      simp [properRunningList]
    constructor
    · rw [hev, checkPrune_append, checkPrune_append, runAfter_append]
      rw [IH1.1, IH1.2, hhead.1, hhead.2, hrun2, IH2.1]
      rfl
    · rw [hev, runAfter_append, runAfter_append]
      rw [IH1.2, hhead.2, hrun2, IH2.2]
      rw [sdiff_sdiff_union, hprop_cons]
      congr 1
      rw [List.toFinset_append]
termination_by weightList cs
decreasing_by
  · exact weightList_children_lt c rest
  · exact weightList_tail_lt c rest

theorem find_by_id_nodup (l : List WNode) (hn : (l.map WNode.id).Nodup) :
    ∀ u ∈ l, l.find? (fun n => n.id = u.id) = some u := by
  induction l with
  | nil => intro u hu; simp at hu
  | cons h tl ih =>
    intro u hu
    rw [List.map_cons, List.nodup_cons] at hn
    rcases List.mem_cons.mp hu with heq | htl
    · subst heq
      simp [List.find?]
    · have hne : ¬ (h.id = u.id) := by
        intro hcontra
        exact hn.1 (hcontra ▸ List.mem_map_of_mem WNode.id htl)
      simp only [List.find?]
      rw [decide_eq_false hne]
      exact ih hn.2 u htl

theorem childIdsOf_eq (tree : WNode) (hn : (allIds tree).Nodup) :
    ∀ u ∈ allNodes tree, childIdsOf tree u.id = u.children.map WNode.id := by
  intro u hu
  unfold childIdsOf findNodeById
  rw [find_by_id_nodup (allNodes tree) hn u hu]
  rfl

theorem nonrunning_not_in_runningIds (tree : WNode) (hn : (allIds tree).Nodup) :
    ∀ v ∈ allNodes tree, v.running = false → v.id ∉ (runningIdsIn tree).toFinset := by
  intro v hv hr hmem
  rw [List.mem_toFinset] at hmem
  simp only [runningIdsIn, List.mem_map, List.mem_filter] at hmem
  obtain ⟨w, ⟨hw, hwr⟩, hid⟩ := hmem
  have hwv : w = v := List.inj_on_of_nodup_map hn hw hv hid
  rw [hwv, hr] at hwr
  exact Bool.false_ne_true hwr

theorem findNodeById_root (t : WNode) : findNodeById t t.id = some t := by
  unfold findNodeById
  cases t with
  | mk i r cs => simp [allNodes, List.find?, WNode.id]

theorem childIdsOf_root (t : WNode) : childIdsOf t t.id = t.children.map WNode.id := by
  unfold childIdsOf
  rw [findNodeById_root]
  rfl

/-- C3 (amended): along the shutdown trace of `_prune_node` on a tree with
distinct node ids, every `_unregister` happens at a point where none of that
node's children's pumps is still running — children's pumps are closed, per
sibling group, strictly before their parent is closed and unregistered
(bottom-up per branch, not per global depth level) — and the pruned root's
pump is closed and the root unregistered last. -/
theorem prune_node_bottom_up_safe (t : WNode) (hn : (allIds t).Nodup) :
    checkPrune t (pruneTrace t) (runningIdsIn t).toFinset = true ∧
    ∃ pre, pruneTrace t
      = pre ++ [.closeGroup [t.id], .unregisterNode t.id] := by
  refine ⟨?_, ⟨eventsOfGroups (_walk_children [t]).reverse, rfl⟩⟩
  unfold pruneTrace
  rw [walk_children_single_reverse, eventsOfGroups_revSub]
  have hlookupAll := childIdsOf_eq t hn
  have hnonrunAll := nonrunning_not_in_runningIds t hn
  have hmem_sub : ∀ x ∈ forestNodes t.children, x ∈ allNodes t :=
    fun x hx => (mem_allNodes_iff t x).mpr (Or.inr hx)
  have hmem_heads : ∀ u ∈ t.children, u ∈ forestNodes t.children :=
    fun u hu => (mem_forestNodes_iff t.children u).mpr ⟨u, hu, self_mem_allNodes u⟩
  have HB := prune_forest_ok t t.children (runningIdsIn t).toFinset
    (fun u hu => hlookupAll u (hmem_sub u hu))
    (fun v hv hr => hnonrunAll v (hmem_sub v hv) hr)
  have hchild1 : ∀ u ∈ t.children, ∀ d ∈ u.children,
      d.id ∉ (runningIdsIn t).toFinset \ (properRunningList t.children).toFinset := by
    intro u hu d hd
    have hd_cc : d ∈ forestNodes t.children :=
      (mem_forestNodes_iff t.children d).mpr
        ⟨u, hu, (mem_allNodes_iff u d).mpr
          (Or.inr ((mem_forestNodes_iff u.children d).mpr
            ⟨d, hd, self_mem_allNodes d⟩))⟩
    by_cases hr : d.running = true
    · have hprop : d.id ∈ properRunningList t.children :=
        (mem_properRunningList t.children d.id).mpr
          ⟨u, hu, d, (mem_forestNodes_iff u.children d).mpr
            ⟨d, hd, self_mem_allNodes d⟩, hr, rfl⟩
      intro hmem
      exact (Finset.mem_sdiff.mp hmem).2 (List.mem_toFinset.mpr hprop)
    · have hnr := hnonrunAll d (hmem_sub d hd_cc) (by simpa using hr)
      intro hmem
      exact hnr (Finset.mem_sdiff.mp hmem).1
  have hhead := head_group_step t t.children
    ((runningIdsIn t).toFinset \ (properRunningList t.children).toFinset)
    (fun u hu => hlookupAll u (hmem_sub u (hmem_heads u hu)))
    hchild1
  have hrun2 : ((runningIdsIn t).toFinset \ (properRunningList t.children).toFinset)
      \ ((t.children.filter (fun x => x.running)).map WNode.id).toFinset
      = (runningIdsIn t).toFinset \ (runningIdsOfForest t.children).toFinset := by
    rw [sdiff_sdiff_union, runningIdsOfForest_split]
  rw [checkPrune_append, checkPrune_append, runAfter_append]
  rw [HB.1, HB.2, hhead.1, hhead.2, hrun2]
  have hfinal : checkPrune t
      [PruneEvent.closeGroup [t.id], PruneEvent.unregisterNode t.id]
      ((runningIdsIn t).toFinset \ (runningIdsOfForest t.children).toFinset)
      = true := by
    simp only [checkPrune, Bool.and_true]
    rw [childIdsOf_root, List.all_eq_true]
    intro cid hcid
    obtain ⟨d, hd, hdid⟩ := List.mem_map.mp hcid
    rw [decide_eq_true_eq]
    subst hdid
    intro hmem
    have hmem2 := Finset.mem_sdiff.mp hmem
    have hmem3 := Finset.mem_sdiff.mp hmem2.1
    by_cases hr : d.running = true
    · have : d.id ∈ runningIdsOfForest t.children :=
        (mem_runningIdsOfForest t.children d.id).mpr
          ⟨d, hmem_heads d hd, hr, rfl⟩
      exact hmem3.2 (List.mem_toFinset.mpr this)
    · exact hnonrunAll d (hmem_sub d (hmem_heads d hd)) (by simpa using hr) hmem3.1
  rw [hfinal]
  rfl

/-- Witness for `prune_node_bottom_up_safe` on a concrete two-branch tree
of running pumps with distinct ids. -/
theorem prune_node_bottom_up_safe_witness :
    (allIds (WNode.mk 0 true [WNode.mk 1 true [WNode.mk 2 true []],
        WNode.mk 3 true [WNode.mk 4 true [WNode.mk 5 true []]]])).Nodup ∧
    (checkPrune (WNode.mk 0 true [WNode.mk 1 true [WNode.mk 2 true []],
        WNode.mk 3 true [WNode.mk 4 true [WNode.mk 5 true []]]])
      (pruneTrace (WNode.mk 0 true [WNode.mk 1 true [WNode.mk 2 true []],
        WNode.mk 3 true [WNode.mk 4 true [WNode.mk 5 true []]]]))
      (runningIdsIn (WNode.mk 0 true [WNode.mk 1 true [WNode.mk 2 true []],
        WNode.mk 3 true [WNode.mk 4 true [WNode.mk 5 true []]]])).toFinset = true ∧
     ∃ pre, pruneTrace (WNode.mk 0 true [WNode.mk 1 true [WNode.mk 2 true []],
        WNode.mk 3 true [WNode.mk 4 true [WNode.mk 5 true []]]])
        = pre ++ [.closeGroup [(WNode.mk 0 true [WNode.mk 1 true [WNode.mk 2 true []],
            WNode.mk 3 true [WNode.mk 4 true [WNode.mk 5 true []]]]).id],
          .unregisterNode (WNode.mk 0 true [WNode.mk 1 true [WNode.mk 2 true []],
            WNode.mk 3 true [WNode.mk 4 true [WNode.mk 5 true []]]]).id]) :=
  ⟨by decide,
   prune_node_bottom_up_safe
     (WNode.mk 0 true [WNode.mk 1 true [WNode.mk 2 true []],
        WNode.mk 3 true [WNode.mk 4 true [WNode.mk 5 true []]]]) (by decide)⟩

theorem pruneTrace_structural (t : WNode) :
    pruneTrace t = eventsOfGroups (revSub t)
      ++ [.closeGroup [t.id], .unregisterNode t.id] := by
  unfold pruneTrace
  rw [walk_children_single_reverse]

/-- The depth of the node with id `x` in the tree `t` (number of
ancestors). -/
def depthOf (t : WNode) (x : Nat) : Nat :=
  (ancestorIds t x).length

/-- The close batches of a prune trace, in order: the id groups whose pumps
are closed and awaited together. -/
def closeBatches (trace : List PruneEvent) : List (List Nat) :=
  trace.filterMap (fun e =>
    match e with
    | .closeGroup ids => some ids
    | .unregisterNode _ => none)

/-- The index of the close batch in which pump `x` is closed. -/
def closePos (batches : List (List Nat)) (x : Nat) : Option Nat :=
  batches.findIdx? (fun ids => decide (x ∈ ids))

/-- The depth-level ordering asserted by the specification for
`_prune_node`, as a decidable check: every running pump at a strictly
greater depth is closed in a strictly earlier batch than any running pump
at a smaller depth (a deeper running pump that is never closed also
violates it). -/
def levelOrderedCloseB (t : WNode) (batches : List (List Nat)) : Bool :=
  (allNodes t).all fun a =>
    (allNodes t).all fun b =>
      if a.running = true ∧ b.running = true ∧ depthOf t b.id < depthOf t a.id then
        match closePos batches a.id, closePos batches b.id with
        | some pa, some pb => decide (pa < pb)
        | _, _ => false
      else true

/-- Whether the shutdown trace of `_prune_node` on `t` closes pumps level
by level, deepest level strictly first, as the specification claims. -/
def levelOrderedClose (t : WNode) : Bool :=
  levelOrderedCloseB t (closeBatches (pruneTrace t))

/-- A two-branch tree of running pumps: node 0 has children 1 (with child
2) and 3 (with child 4, which has child 5). -/
def pruneLevelCex : WNode :=
  .mk 0 true [.mk 1 true [.mk 2 true []],
    .mk 3 true [.mk 4 true [.mk 5 true []]]]

/-- C3 counterexample: `_walk_children` is a depth-first walk, not a
level-order one, so on `pruneLevelCex` the pump of node 2 (depth 2, first
branch) is closed in an earlier batch than the strictly deeper pump of node
5 (depth 3, second branch) — the close order is `[2], [5], [4], [1, 3],
[0]` — refuting the claim that all pumps of a deeper level are closed
before any pump of a shallower level. -/
theorem prune_close_not_level_ordered : levelOrderedClose pruneLevelCex = false := by
  unfold levelOrderedClose
  rw [pruneTrace_structural]
  decide

end TextualCore
